import Mathlib

/-!
Verification of `scipy/optimize/_numdiff.py` (finite-difference derivative
estimation) by a shallow embedding into Lean.

Modelling conventions:
* Python floats are modelled by exact rationals `ℚ`; the code's arithmetic is
  read in exact arithmetic.  (The default relative step `EPS**(1/s)` is a real
  number and is modelled over `ℝ` in the StepPlanner section.)
* An infinite bound (`np.inf` / `-np.inf`) is modelled by `none : Option ℚ`:
  for a lower bound `none` means `-∞`, for an upper bound `+∞`.  The distances
  `x0 - lb` and `ub - x0` then live in `WithTop ℚ` (`⊤` plays the role of
  `+∞`, exactly as IEEE `inf` behaves in the comparisons the code performs).
* numpy vectors of length `n` are functions `Fin n → ℚ`, matrices are
  `Fin m → Fin n → ℚ`.  A scipy sparse matrix is modelled by its value
  matrix; its stored/structural nonzeros are the positions with value ≠ 0
  (`scipy.sparse.find` filters explicit zeros, so this is faithful).
-/

namespace NumDiff

/-- Membership of a point in a (possibly half-infinite) bound interval:
`lb ≤ x` (trivial when `lb = -∞`, i.e. `none`) and `x ≤ ub` (trivial when
`ub = +∞`, i.e. `none`). -/
def inBounds (lb ub : Option ℚ) (x : ℚ) : Prop :=
  (match lb with
   | none => True
   | some l => l ≤ x) ∧
  (match ub with
   | none => True
   | some u => x ≤ u)

instance (lb ub : Option ℚ) (x : ℚ) : Decidable (inBounds lb ub x) := by
  unfold inBounds
  cases lb <;> cases ub <;> exact inferInstance

/-- `x0 - lb` as an element of `WithTop ℚ` (`⊤` when `lb = -∞`).
Mirrors `lower_dist = x0 - lb` of `_adjust_scheme_to_bounds`. -/
def lowerDist (x0 : ℚ) (lb : Option ℚ) : WithTop ℚ :=
  match lb with
  | none => ⊤
  | some l => ↑(x0 - l)

/-- `ub - x0` as an element of `WithTop ℚ` (`⊤` when `ub = +∞`).
Mirrors `upper_dist = ub - x0` of `_adjust_scheme_to_bounds`. -/
def upperDist (x0 : ℚ) (ub : Option ℚ) : WithTop ℚ :=
  match ub with
  | none => ⊤
  | some u => ↑(u - x0)

/-- `(x < lb) | (x > ub)` where `x = x0 + h_total`; a comparison against an
infinite bound is `false`, as for IEEE infinities. -/
def oneSidedViolated (x : ℚ) (lb ub : Option ℚ) : Bool :=
  (match lb with
   | some l => decide (x < l)
   | none => false) ||
  (match ub with
   | some u => decide (u < x)
   | none => false)

/-- Per-variable body of the `scheme == '1-sided'` branch of
`_adjust_scheme_to_bounds` (source lines 62–71).  The numpy code first flips
the entries with `violated & fitting`, then overwrites the `~fitting` entries
(`forward` / `backward` partition `~fitting`); the three cases are mutually
exclusive, which the `if`-cascade below renders.  In the `~fitting` branch
both distances are finite (an infinite distance makes `fitting` true), so
`untop' 0` never actually hits `⊤` there. -/
def adjust1SidedVar (x0 h : ℚ) (numSteps : ℕ) (lb ub : Option ℚ) : ℚ :=
  let hTotal := h * numSteps
  let ld := lowerDist x0 lb
  let ud := upperDist x0 ub
  if ¬ ((↑|hTotal| : WithTop ℚ) ≤ max ld ud) then
    if ld ≤ ud then (ud.untop' 0) / numSteps
    else -((ld.untop' 0) / numSteps)
  else if oneSidedViolated (x0 + hTotal) lb ub then -h else h

/-- Per-variable body of the `scheme == '2-sided'` branch of
`_adjust_scheme_to_bounds` (source lines 72–88), returning the adjusted step
and the `use_one_sided` flag.  `h` is first replaced by `|h|` (line 48).
The numpy masked assignments (`forward`/`backward`, then `adjusted_central`
recomputed from the updated `h_adjusted`) are rendered by the same cascade:
a variable is `central`, else it is tentatively made one-sided with the
halved clamped step, and then restored to central when that adjusted step
fits the minimum distance. -/
def adjust2SidedVar (x0 h : ℚ) (numSteps : ℕ) (lb ub : Option ℚ) : ℚ × Bool :=
  let ha := |h|
  let hTotal := ha * numSteps
  let ld := lowerDist x0 lb
  let ud := upperDist x0 ub
  if (↑hTotal : WithTop ℚ) ≤ ld ∧ (↑hTotal : WithTop ℚ) ≤ ud then
    (ha, false)
  else
    let hAdj : ℚ :=
      if ld ≤ ud then
        (min (↑ha) (ud.map (fun d : ℚ => 1/2 * d / numSteps))).untop' 0
      else
        -((min (↑ha) (ld.map (fun d : ℚ => 1/2 * d / numSteps))).untop' 0)
    let minDist : WithTop ℚ := (min ud ld).map (fun d : ℚ => d / numSteps)
    if (↑|hAdj| : WithTop ℚ) ≤ minDist then
      (minDist.untop' 0, false)
    else
      (hAdj, true)

/-- Vectorized `'1-sided'` branch of `_adjust_scheme_to_bounds`, with the
early return for fully unbounded input (line 53).  `use_one_sided` is all
`true` (line 46). -/
def adjustSchemeToBounds1Sided (n : ℕ) (x0 h : Fin n → ℚ) (numSteps : ℕ)
    (lb ub : Fin n → Option ℚ) : (Fin n → ℚ) × (Fin n → Bool) :=
  if ∀ i, lb i = none ∧ ub i = none then
    (h, fun _ => true)
  else
    (fun i => adjust1SidedVar (x0 i) (h i) numSteps (lb i) (ub i),
     fun _ => true)

/-- Vectorized `'2-sided'` branch of `_adjust_scheme_to_bounds`, with the
early return for fully unbounded input (after `h = np.abs(h)`). -/
def adjustSchemeToBounds2Sided (n : ℕ) (x0 h : Fin n → ℚ) (numSteps : ℕ)
    (lb ub : Fin n → Option ℚ) : (Fin n → ℚ) × (Fin n → Bool) :=
  if ∀ i, lb i = none ∧ ub i = none then
    (fun i => |h i|, fun _ => false)
  else
    (fun i => (adjust2SidedVar (x0 i) (h i) numSteps (lb i) (ub i)).1,
     fun i => (adjust2SidedVar (x0 i) (h i) numSteps (lb i) (ub i)).2)

/-- `_adjust_scheme_to_bounds` itself: dispatch on the `scheme` string,
raising `ValueError` for anything other than `'1-sided'`/`'2-sided'`. -/
def adjustSchemeToBounds (n : ℕ) (x0 h : Fin n → ℚ) (numSteps : ℕ)
    (scheme : String) (lb ub : Fin n → Option ℚ) :
    Except String ((Fin n → ℚ) × (Fin n → Bool)) :=
  if scheme = "1-sided" then
    .ok (adjustSchemeToBounds1Sided n x0 h numSteps lb ub)
  else if scheme = "2-sided" then
    .ok (adjustSchemeToBounds2Sided n x0 h numSteps lb ub)
  else
    .error "scheme must be 1-sided or 2-sided"

/-- The literal reading of claim C5: if the unmodified step leaves the bound
interval *and* `|h*num_steps|` does not exceed `max(x0-lb, ub-x0)`, the sign
of `h` is flipped; **otherwise** `h` is set to `(ub-x0)/num_steps` when
`ub-x0 ≥ x0-lb` and to `-(x0-lb)/num_steps` when `ub-x0 < x0-lb`. -/
def oneSidedAdjustClaim (x0 h : ℚ) (s : ℕ) (lb ub : Option ℚ) (res : ℚ) : Prop :=
  (oneSidedViolated (x0 + h * s) lb ub = true ∧
     (↑|h * s| : WithTop ℚ) ≤ max (lowerDist x0 lb) (upperDist x0 ub) ∧
     res = -h) ∨
  (¬ (oneSidedViolated (x0 + h * s) lb ub = true ∧
        (↑|h * s| : WithTop ℚ) ≤ max (lowerDist x0 lb) (upperDist x0 ub)) ∧
     ((lowerDist x0 lb ≤ upperDist x0 ub ∧
         res = (upperDist x0 ub).untop' 0 / s) ∨
      (upperDist x0 ub < lowerDist x0 lb ∧
         res = -((lowerDist x0 lb).untop' 0 / s))))

/-- The amendment forced by the code: flipping happens for
`violated ∧ fitting`, clamping happens only when the step does **not** fit
(`¬ fitting`), and a fitting, non-violating step is left unchanged. -/
def oneSidedAdjustAmended (x0 h : ℚ) (s : ℕ) (lb ub : Option ℚ) (res : ℚ) : Prop :=
  (oneSidedViolated (x0 + h * s) lb ub = true ∧
     (↑|h * s| : WithTop ℚ) ≤ max (lowerDist x0 lb) (upperDist x0 ub) ∧
     res = -h) ∨
  (¬ ((↑|h * s| : WithTop ℚ) ≤ max (lowerDist x0 lb) (upperDist x0 ub)) ∧
     ((lowerDist x0 lb ≤ upperDist x0 ub ∧
         res = (upperDist x0 ub).untop' 0 / s) ∨
      (upperDist x0 ub < lowerDist x0 lb ∧
         res = -((lowerDist x0 lb).untop' 0 / s)))) ∨
  (oneSidedViolated (x0 + h * s) lb ub = false ∧
     (↑|h * s| : WithTop ℚ) ≤ max (lowerDist x0 lb) (upperDist x0 ub) ∧
     res = h)

/-- Machine epsilon of IEEE float64: `EPS = np.finfo(np.float64).eps = 2⁻⁵²`
(source line 11). -/
noncomputable def EPS : ℝ := 2 ^ (-52 : ℤ)

/-- `sign_x0 = (x0 >= 0).astype(float) * 2 - 1` (source line 102). -/
noncomputable def signX0 (x0 : ℝ) : ℝ :=
  (if 0 ≤ x0 then (1 : ℝ) else 0) * 2 - 1

/-- `_compute_absolute_step`: resolve the relative step (defaulting to
`EPS**(1/2)` for '2-point' and `EPS**(1/3)` for '3-point', raising
`ValueError` for any other method string), then return
`rel_step * sign_x0 * max(1, |x0|)`. -/
noncomputable def computeAbsoluteStep (relStep : Option ℝ) (x0 : ℝ)
    (method : String) : Except String ℝ := do
  let r : ℝ ←
    match relStep with
    | none =>
      if method = "2-point" then pure (EPS ^ ((1 : ℝ)/2))
      else if method = "3-point" then pure (EPS ^ ((1 : ℝ)/3))
      else Except.error "method must be 2-point or 3-point"
    | some r => pure r
  pure (r * signX0 x0 * max 1 |x0|)

/-- The input-validation errors of `approx_derivative`. -/
inductive ValidationError where
  | invalidMethod : ValidationError
  | shapeError : ValidationError
  | boundViolation : ValidationError
deriving DecidableEq

/-- `_prepare_bounds` (source lines 106–114): a scalar (0-d) bound is
resized to the point's shape; a vector bound is kept as given. -/
def prepareBounds (b : Option ℚ ⊕ List (Option ℚ)) (n : ℕ) : List (Option ℚ) :=
  match b with
  | .inl c => List.replicate n c
  | .inr v => v

/-- `np.any((x0 < lb) | (x0 > ub))` over equally-long lists. -/
def anyBoundViolated (x0 : List ℚ) (lb ub : List (Option ℚ)) : Bool :=
  (x0.zip (lb.zip ub)).any fun p =>
    (match p.2.1 with
     | some l => decide (p.1 < l)
     | none => false) ||
    (match p.2.2 with
     | some u => decide (u < p.1)
     | none => false)

/-- The validation prefix of `approx_derivative`, in source order: the
method check (line 297), the bounds shape check (line 306), then — when
`f0` is **not** supplied — the `f0 = fun_wrapped(x0)` evaluation
(line 317), and only after it the bound-constraint check (line 323).  The
second component counts how many times `fun` has been invoked when the
function returns or raises. -/
def approxDerivativeValidate (method : String) (x0 : List ℚ)
    (lbS ubS : Option ℚ ⊕ List (Option ℚ)) (f0Given : Bool) :
    Except ValidationError Unit × ℕ :=
  if ¬ (method = "2-point" ∨ method = "3-point") then
    (.error .invalidMethod, 0)
  else
    let lb := prepareBounds lbS x0.length
    let ub := prepareBounds ubS x0.length
    if lb.length ≠ x0.length ∨ ub.length ≠ x0.length then
      (.error .shapeError, 0)
    else
      let nEvals : ℕ := if f0Given then 0 else 1
      if anyBoundViolated x0 lb ub then (.error .boundViolation, nEvals)
      else (.ok (), nEvals)

/-- Columns `c` and `c'` share a structurally nonzero row of the boolean
pattern. -/
def shareRow {m n : ℕ} (pattern : Fin m → Fin n → Bool) (c c' : Fin n) : Bool :=
  decide (∃ r, pattern r c = true ∧ pattern r c' = true)

/-- Modelled from the spec: a column `c` may join group `g` when no column
already assigned to `g` shares a structurally nonzero row with it. -/
def compatible {m n : ℕ} (pattern : Fin m → Fin n → Bool)
    (asg : List (Fin n × ℕ)) (c : Fin n) (g : ℕ) : Bool :=
  asg.all fun p => decide (p.2 ≠ g) || !(shareRow pattern c p.1)

/-- Modelled from the spec: the greedy sequential coloring of
`group_dense`/`group_sparse` (Cython module `_group_columns`, absent from
the sources).  Scan the columns in the given order, assigning each the
lowest existing group id it is compatible with, or a fresh group id.
`asg` accumulates `(column, group)` pairs and `G` is the number of groups
created so far. -/
def greedyGroup {m n : ℕ} (pattern : Fin m → Fin n → Bool) :
    List (Fin n) → List (Fin n × ℕ) × ℕ → List (Fin n × ℕ) × ℕ
  | [], acc => acc
  | c :: rest, (asg, G) =>
    let g := ((List.range G).find? (fun g => compatible pattern asg c g)).getD G
    greedyGroup pattern rest ((c, g) :: asg, max G (g + 1))

/-- Look up a column's assigned group (0 when unassigned; after a full scan
every column is assigned). -/
def assignedGroup {n : ℕ} (asg : List (Fin n × ℕ)) (c : Fin n) : ℕ :=
  ((asg.find? fun p => decide (p.1 = c)).map Prod.snd).getD 0

/-- `group_columns`: binarize, permute columns, run the greedy coloring,
undo the permutation.  Returns the Groups vector together with the number
of groups created. -/
def groupColumnsFull {m n : ℕ} (A : Fin m → Fin n → ℚ)
    (order : Option (Equiv.Perm (Fin n))) (randOrder : Equiv.Perm (Fin n)) :
    (Fin n → ℕ) × ℕ :=
  let ord := order.getD randOrder
  let pattern : Fin m → Fin n → Bool := fun r c => decide (A r c ≠ 0)
  let res := greedyGroup pattern ((List.finRange n).map ord) ([], 0)
  (fun c => assignedGroup res.1 c, res.2)

/-- The Groups vector of `group_columns`. -/
def groupColumns {m n : ℕ} (A : Fin m → Fin n → ℚ)
    (order : Option (Equiv.Perm (Fin n))) (randOrder : Equiv.Perm (Fin n)) :
    Fin n → ℕ :=
  (groupColumnsFull A order randOrder).1

/-- The two finite-difference methods accepted by `approx_derivative`. -/
inductive FDMethod where
  | twoPoint : FDMethod
  | threePoint : FDMethod
deriving DecidableEq

/-- `_dense_difference`: the entry `J[r, i]`.  The source fills
`J_transposed[i] = df/dx` column by column (`h_vecs = np.diag(h)`, so
`x0 + h_vecs[i]` perturbs only coordinate `i`) and transposes at the end;
for `m = 1` it additionally ravels the result to shape `(n,)`, a pure
reshape not affecting the entries.  `dx` is recomputed from the perturbed
point, exactly as in the source. -/
def denseDifference {m n : ℕ} (f : (Fin n → ℚ) → Fin m → ℚ) (x0 : Fin n → ℚ)
    (f0 : Fin m → ℚ) (h : Fin n → ℚ) (useOneSided : Fin n → Bool)
    (method : FDMethod) : Fin m → Fin n → ℚ :=
  fun r i =>
    match method with
    | .twoPoint =>
      let x : Fin n → ℚ := fun j => if j = i then x0 j + h j else x0 j
      let dx := x i - x0 i
      (f x r - f0 r) / dx
    | .threePoint =>
      if useOneSided i then
        let x1 : Fin n → ℚ := fun j => if j = i then x0 j + h j else x0 j
        let x2 : Fin n → ℚ := fun j => if j = i then x0 j + 2 * h j else x0 j
        let dx := x2 i - x0 i
        (-3 * f0 r + 4 * f x1 r - f x2 r) / dx
      else
        let x1 : Fin n → ℚ := fun j => if j = i then x0 j - h j else x0 j
        let x2 : Fin n → ℚ := fun j => if j = i then x0 j + h j else x0 j
        let dx := x2 i - x1 i
        (f x2 r - f x1 r) / dx

/-- One group's contribution in `_sparse_difference`: the divided
difference `df[r] / dx[c]` that the loop body scatters into `J[i, j]` for
the triples of group `g`.  `e = (groups == g)`, `h_vec = h * e`; for
'3-point' the rows reached through a one-sided column get the one-sided
formula and the rows reached through a central column get the central one
(numpy writes the one-sided rows first, so a later central write wins;
rows not reached at all hold `np.empty` junk that is never read, modelled
as 0). -/
def sparseGroupValue {m n : ℕ} (f : (Fin n → ℚ) → Fin m → ℚ) (x0 : Fin n → ℚ)
    (f0 : Fin m → ℚ) (h : Fin n → ℚ) (useOneSided : Fin n → Bool)
    (structMat : Fin m → Fin n → ℚ) (groups : Fin n → ℕ) (method : FDMethod)
    (g : ℕ) : Fin m → Fin n → ℚ :=
  let e : Fin n → Bool := fun j => decide (groups j = g)
  let hvec : Fin n → ℚ := fun j => h j * (if e j then 1 else 0)
  match method with
  | .twoPoint =>
    let x : Fin n → ℚ := fun j => x0 j + hvec j
    let dx : Fin n → ℚ := fun j => x j - x0 j
    let df : Fin m → ℚ := fun r => f x r - f0 r
    fun r c => df r / dx c
  | .threePoint =>
    let x1 : Fin n → ℚ := fun j =>
      if useOneSided j && e j then x0 j + hvec j
      else if !useOneSided j && e j then x0 j - hvec j
      else x0 j
    let x2 : Fin n → ℚ := fun j =>
      if useOneSided j && e j then x0 j + 2 * hvec j
      else if !useOneSided j && e j then x0 j + hvec j
      else x0 j
    let dx : Fin n → ℚ := fun j =>
      if useOneSided j && e j then x2 j - x0 j
      else if !useOneSided j && e j then x2 j - x1 j
      else 0
    let f1 := f x1
    let f2 := f x2
    let df : Fin m → ℚ := fun r =>
      if ∃ j, e j = true ∧ structMat r j ≠ 0 ∧ useOneSided j = false then
        f2 r - f1 r
      else if ∃ j, e j = true ∧ structMat r j ≠ 0 ∧ useOneSided j = true then
        -3 * f0 r + 4 * f1 r - f2 r
      else 0
    fun r c => df r / dx c

/-- The loop body of `_sparse_difference`: scatter group `g`'s divided
differences into `J` at the structurally nonzero positions of the group's
columns (`i, j, _ = find(structure[:, cols])`, `J[i, j] = df[i] / dx[j]`). -/
def sparseGroupStep {m n : ℕ} (f : (Fin n → ℚ) → Fin m → ℚ) (x0 : Fin n → ℚ)
    (f0 : Fin m → ℚ) (h : Fin n → ℚ) (useOneSided : Fin n → Bool)
    (structMat : Fin m → Fin n → ℚ) (groups : Fin n → ℕ) (method : FDMethod)
    (J : Fin m → Fin n → ℚ) (g : ℕ) : Fin m → Fin n → ℚ :=
  fun r c =>
    if groups c = g ∧ structMat r c ≠ 0 then
      sparseGroupValue f x0 f0 h useOneSided structMat groups method g r c
    else J r c

/-- `n_groups = np.max(groups) + 1` (line 386).  `np.max` raises on an
empty vector; `Finset.sup` returns 0 for `n = 0` (the `n = 0` Jacobian is
empty, so nothing depends on that corner). -/
def nGroups {n : ℕ} (groups : Fin n → ℕ) : ℕ :=
  (Finset.univ.sup groups) + 1

/-- `_sparse_difference`: fold the per-group scatter over
`range(n_groups)`, starting from the zero-initialized `lil_matrix`. -/
def sparseDifference {m n : ℕ} (f : (Fin n → ℚ) → Fin m → ℚ) (x0 : Fin n → ℚ)
    (f0 : Fin m → ℚ) (h : Fin n → ℚ) (useOneSided : Fin n → Bool)
    (structMat : Fin m → Fin n → ℚ) (groups : Fin n → ℕ)
    (method : FDMethod) : Fin m → Fin n → ℚ :=
  (List.range (nGroups groups)).foldl
    (sparseGroupStep f x0 f0 h useOneSided structMat groups method)
    (fun _ _ => 0)

/-- `_compute_absolute_step` over ℚ with the relative step given (the
default `EPS**(1/s)` is irrational and is analyzed separately over ℝ):
`rel_step * sign(x0) * max(1, |x0|)` with
`sign_x0 = (x0 >= 0).astype(float) * 2 - 1`. -/
def computeAbsoluteStepQ (relStep x0 : ℚ) : ℚ :=
  relStep * ((if 0 ≤ x0 then (1 : ℚ) else 0) * 2 - 1) * max 1 |x0|

/-- `approx_derivative` (lines 297–345) over ℚ, after the method/shape
validation modelled by `approxDerivativeValidate` (shapes are enforced by
the `Fin` types here; `relStep` is the explicitly supplied relative step).
In source order: the bound-constraint check on `x0`, the absolute step,
the scheme adjustment ('1-sided' with `num_steps=1` for 2-point, '2-sided'
with `num_steps=1` for 3-point), then dense or sparse differencing. -/
def approxDerivative {m n : ℕ} (f : (Fin n → ℚ) → Fin m → ℚ) (x0 : Fin n → ℚ)
    (method : FDMethod) (relStep : ℚ) (f0 : Option (Fin m → ℚ))
    (lb ub : Fin n → Option ℚ)
    (sparsity : Option ((Fin m → Fin n → ℚ) × (Fin n → ℕ))) :
    Except ValidationError (Fin m → Fin n → ℚ) :=
  let f0v : Fin m → ℚ :=
    match f0 with
    | none => f x0
    | some v => v
  if ∃ i, ¬ inBounds (lb i) (ub i) (x0 i) then
    .error .boundViolation
  else
    let h : Fin n → ℚ := fun i => computeAbsoluteStepQ relStep (x0 i)
    let hos : (Fin n → ℚ) × (Fin n → Bool) :=
      match method with
      | .twoPoint => adjustSchemeToBounds1Sided n x0 h 1 lb ub
      | .threePoint => adjustSchemeToBounds2Sided n x0 h 1 lb ub
    match sparsity with
    | none => .ok (denseDifference f x0 f0v hos.1 hos.2 method)
    | some sp =>
        .ok (sparseDifference f x0 f0v hos.1 hos.2 sp.1 sp.2 method)

/-- Failures of `check_derivative`: a validation error propagated from
`approx_derivative`, or the `np.max` of an empty reduction (line 523)
when the stored difference `J_to_test - J_diff` has no nonzero entry. -/
inductive CheckError where
  | validation : ValidationError → CheckError
  | emptyMax : CheckError
deriving DecidableEq

/-- `check_derivative` (lines 434–531).  `Jtest` is the value returned by
the user's `jac` at `x0` and `jacSparse` records whether it is a sparse
matrix.  When the sparsity is derived (`sparsity=None`), `group_columns`
draws a random permutation, modelled by the `randOrder` argument.  The
sparse comparison takes `find(J_to_test - J_diff)` — the positions with
nonzero stored difference — and maximizes
`|difference| / max(1, |J_diff|)` there; the dense comparison maximizes
the same metric over all entries.  `approx_derivative` is called without
`method`, i.e. with its '3-point' default. -/
def checkDerivative {m n : ℕ} (f : (Fin n → ℚ) → Fin m → ℚ)
    (Jtest : Fin m → Fin n → ℚ) (jacSparse sparseDiff : Bool)
    (sparsity : Option ((Fin m → Fin n → ℚ) × (Fin n → ℕ)))
    (x0 : Fin n → ℚ) (lb ub : Fin n → Option ℚ) (relStep : ℚ)
    (randOrder : Equiv.Perm (Fin n)) : Except CheckError ℚ :=
  if jacSparse && sparseDiff then
    let sp : (Fin m → Fin n → ℚ) × (Fin n → ℕ) :=
      match sparsity with
      | none => (Jtest, groupColumns Jtest none randOrder)
      | some s => s
    match approxDerivative f x0 .threePoint relStep none lb ub (some sp) with
    | .error e => .error (.validation e)
    | .ok Jdiff =>
      let errPos : Finset (Fin m × Fin n) :=
        Finset.univ.filter fun p => Jtest p.1 p.2 - Jdiff p.1 p.2 ≠ 0
      if hne : errPos.Nonempty then
        .ok (errPos.sup' hne fun p =>
          |Jtest p.1 p.2 - Jdiff p.1 p.2| / max 1 |Jdiff p.1 p.2|)
      else .error .emptyMax
  else
    match approxDerivative f x0 .threePoint relStep none lb ub none with
    | .error e => .error (.validation e)
    | .ok Jdiff =>
      if hne : (Finset.univ : Finset (Fin m × Fin n)).Nonempty then
        .ok (Finset.univ.sup' hne fun p : Fin m × Fin n =>
          |Jtest p.1 p.2 - Jdiff p.1 p.2| / max 1 |Jdiff p.1 p.2|)
      else .error .emptyMax

/-! Reduced per-case forms of the per-variable adjustments (`num_steps = 1`,
as `_adjust_scheme_to_bounds` is invoked by `approx_derivative`). -/

lemma adjust1SidedVar_none_none (x0 h : ℚ) :
    adjust1SidedVar x0 h 1 none none = h := by
  unfold adjust1SidedVar lowerDist upperDist oneSidedViolated
  simp

lemma adjust1SidedVar_none_some (x0 h u : ℚ) :
    adjust1SidedVar x0 h 1 none (some u) = if u < x0 + h then -h else h := by
  unfold adjust1SidedVar lowerDist upperDist oneSidedViolated
  simp [le_max_iff]

lemma adjust1SidedVar_some_none (x0 h l : ℚ) :
    adjust1SidedVar x0 h 1 (some l) none = if x0 + h < l then -h else h := by
  unfold adjust1SidedVar lowerDist upperDist oneSidedViolated
  simp [le_max_iff]

lemma adjust1SidedVar_some_some (x0 h l u : ℚ) :
    adjust1SidedVar x0 h 1 (some l) (some u) =
      if ¬ (|h| ≤ max (x0 - l) (u - x0)) then
        (if x0 - l ≤ u - x0 then u - x0 else -(x0 - l))
      else if x0 + h < l ∨ u < x0 + h then -h else h := by
  unfold adjust1SidedVar lowerDist upperDist oneSidedViolated
  simp only [Nat.cast_one, mul_one, div_one, ← WithTop.coe_max, WithTop.coe_le_coe,
    WithTop.untop'_coe, Bool.or_eq_true, decide_eq_true_eq]

lemma adjust2SidedVar_none_none (x0 h : ℚ) :
    adjust2SidedVar x0 h 1 none none = (|h|, false) := by
  unfold adjust2SidedVar lowerDist upperDist
  simp

lemma adjust2SidedVar_none_some (x0 h u : ℚ) :
    adjust2SidedVar x0 h 1 none (some u) =
      if |h| ≤ u - x0 then (|h|, false) else (-|h|, true) := by
  unfold adjust2SidedVar lowerDist upperDist
  simp only [Nat.cast_one, mul_one, le_top, true_and, WithTop.coe_le_coe,
    WithTop.map_top, WithTop.map_coe, min_top_right, min_top_left,
    WithTop.untop'_coe, div_one, top_le_iff, WithTop.coe_ne_top, if_false,
    abs_neg, abs_abs]
  split_ifs with h1 <;> rfl

lemma adjust2SidedVar_some_none (x0 h l : ℚ) :
    adjust2SidedVar x0 h 1 (some l) none =
      if |h| ≤ x0 - l then (|h|, false) else (|h|, true) := by
  unfold adjust2SidedVar lowerDist upperDist
  simp only [Nat.cast_one, mul_one, le_top, and_true, WithTop.coe_le_coe,
    WithTop.map_top, WithTop.map_coe, min_top_right, min_top_left,
    WithTop.untop'_coe, div_one, le_top, if_true, ite_true, abs_abs]
  split_ifs with h1 <;> rfl

lemma adjust2SidedVar_some_some (x0 h l u : ℚ) :
    adjust2SidedVar x0 h 1 (some l) (some u) =
      if |h| ≤ x0 - l ∧ |h| ≤ u - x0 then (|h|, false)
      else if x0 - l ≤ u - x0 then
        (if |min |h| (1/2 * (u - x0))| ≤ min (u - x0) (x0 - l) then
           (min (u - x0) (x0 - l), false)
         else (min |h| (1/2 * (u - x0)), true))
      else
        (if |(-(min |h| (1/2 * (x0 - l))))| ≤ min (u - x0) (x0 - l) then
           (min (u - x0) (x0 - l), false)
         else (-(min |h| (1/2 * (x0 - l))), true)) := by
  unfold adjust2SidedVar lowerDist upperDist
  simp only [Nat.cast_one, mul_one, WithTop.coe_le_coe, WithTop.map_coe,
    ← WithTop.coe_min, WithTop.untop'_coe, div_one]
  split_ifs <;> rfl

/-! The adjusted one-sided step keeps `x0 + h` inside the bounds. -/

lemma inBounds_none_none (y : ℚ) : inBounds none none y := ⟨trivial, trivial⟩

lemma inBounds_none_some {u y : ℚ} (h : y ≤ u) : inBounds none (some u) y :=
  ⟨trivial, h⟩

lemma inBounds_some_none {l y : ℚ} (h : l ≤ y) : inBounds (some l) none y :=
  ⟨h, trivial⟩

lemma inBounds_some_some {l u y : ℚ} (h1 : l ≤ y) (h2 : y ≤ u) :
    inBounds (some l) (some u) y := ⟨h1, h2⟩

lemma adjust1SidedVar_mem (x0 h : ℚ) (lb ub : Option ℚ)
    (hx : inBounds lb ub x0) :
    inBounds lb ub (x0 + adjust1SidedVar x0 h 1 lb ub) := by
  obtain ⟨hlo, hup⟩ := hx
  cases lb with
  | none =>
    cases ub with
    | none => exact inBounds_none_none _
    | some u =>
      rw [adjust1SidedVar_none_some]
      refine inBounds_none_some ?_
      simp only [inBounds] at hup
      split_ifs with h1 <;> linarith
  | some l =>
    cases ub with
    | none =>
      rw [adjust1SidedVar_some_none]
      refine inBounds_some_none ?_
      simp only [inBounds] at hlo
      split_ifs with h1 <;> linarith
    | some u =>
      rw [adjust1SidedVar_some_some]
      simp only [inBounds] at hlo hup
      split_ifs with h1 h2 h3
      · -- fitting and violated: the sign of h is flipped
        rcases le_max_iff.mp h1 with hm | hm <;>
          rcases abs_cases h with ⟨he, hs⟩ | ⟨he, hs⟩ <;>
          rcases h2 with hv | hv <;>
          exact inBounds_some_some (by linarith) (by linarith)
      · -- fitting and not violated: h is unchanged
        push_neg at h2
        exact inBounds_some_some (by linarith) (by linarith)
      · -- not fitting, forward clamp to the upper bound
        exact inBounds_some_some (by linarith) (by linarith)
      · -- not fitting, backward clamp to the lower bound
        exact inBounds_some_some (by linarith) (by linarith)

/-! The adjusted two-sided step keeps all scheme points inside the
bounds: `x0 + h` and `x0 + 2h` for a variable forced one-sided, `x0 - h` and
`x0 + h` for a central variable. -/

lemma adjust2SidedVar_mem (x0 h : ℚ) (lb ub : Option ℚ)
    (hx : inBounds lb ub x0) :
    ((adjust2SidedVar x0 h 1 lb ub).2 = true →
        inBounds lb ub (x0 + (adjust2SidedVar x0 h 1 lb ub).1) ∧
        inBounds lb ub (x0 + 2 * (adjust2SidedVar x0 h 1 lb ub).1)) ∧
    ((adjust2SidedVar x0 h 1 lb ub).2 = false →
        inBounds lb ub (x0 - (adjust2SidedVar x0 h 1 lb ub).1) ∧
        inBounds lb ub (x0 + (adjust2SidedVar x0 h 1 lb ub).1)) := by
  obtain ⟨hlo, hup⟩ := hx
  have habs : 0 ≤ |h| := abs_nonneg h
  cases lb with
  | none =>
    cases ub with
    | none =>
      rw [adjust2SidedVar_none_none]
      exact ⟨fun hb => (nomatch hb),
             fun _ => ⟨inBounds_none_none _, inBounds_none_none _⟩⟩
    | some u =>
      rw [adjust2SidedVar_none_some]
      simp only [inBounds] at hup
      split_ifs with h1 <;> dsimp only
      · exact ⟨fun hb => (nomatch hb),
               fun _ => ⟨inBounds_none_some (by linarith),
                         inBounds_none_some (by linarith)⟩⟩
      · exact ⟨fun _ => ⟨inBounds_none_some (by linarith),
                         inBounds_none_some (by linarith)⟩,
               fun hb => (nomatch hb)⟩
  | some l =>
    cases ub with
    | none =>
      rw [adjust2SidedVar_some_none]
      simp only [inBounds] at hlo
      split_ifs with h1 <;> dsimp only
      · exact ⟨fun hb => (nomatch hb),
               fun _ => ⟨inBounds_some_none (by linarith),
                         inBounds_some_none (by linarith)⟩⟩
      · exact ⟨fun _ => ⟨inBounds_some_none (by linarith),
                         inBounds_some_none (by linarith)⟩,
               fun hb => (nomatch hb)⟩
    | some u =>
      rw [adjust2SidedVar_some_some]
      simp only [inBounds] at hlo hup
      split_ifs with h1 h2 h3 h4 <;> dsimp only
      · -- central
        obtain ⟨hc1, hc2⟩ := h1
        exact ⟨fun hb => (nomatch hb),
               fun _ => ⟨inBounds_some_some (by linarith) (by linarith),
                         inBounds_some_some (by linarith) (by linarith)⟩⟩
      · -- forward, restored to central with the minimum distance
        rcases min_cases (u - x0) (x0 - l) with ⟨hm, hc⟩ | ⟨hm, hc⟩ <;>
          rw [hm] <;>
          exact ⟨fun hb => (nomatch hb),
                 fun _ => ⟨inBounds_some_some (by linarith) (by linarith),
                           inBounds_some_some (by linarith) (by linarith)⟩⟩
      · -- forward, one-sided with the halved clamped step
        rcases min_cases |h| (1/2 * (u - x0)) with ⟨hm, hc⟩ | ⟨hm, hc⟩ <;>
          rw [hm] <;>
          exact ⟨fun _ => ⟨inBounds_some_some (by linarith) (by linarith),
                           inBounds_some_some (by linarith) (by linarith)⟩,
                 fun hb => (nomatch hb)⟩
      · -- backward, restored to central with the minimum distance
        rcases min_cases (u - x0) (x0 - l) with ⟨hm, hc⟩ | ⟨hm, hc⟩ <;>
          rw [hm] <;>
          exact ⟨fun hb => (nomatch hb),
                 fun _ => ⟨inBounds_some_some (by linarith) (by linarith),
                           inBounds_some_some (by linarith) (by linarith)⟩⟩
      · -- backward, one-sided with the halved clamped step
        rcases min_cases |h| (1/2 * (x0 - l)) with ⟨hm, hc⟩ | ⟨hm, hc⟩ <;>
          rw [hm] <;>
          exact ⟨fun _ => ⟨inBounds_some_some (by linarith) (by linarith),
                           inBounds_some_some (by linarith) (by linarith)⟩,
                 fun hb => (nomatch hb)⟩

/-- C1. For every starting point `x0` with `lb ≤ x0 ≤ ub` componentwise,
the step vector and one-sided mask returned by `_adjust_scheme_to_bounds`
(with `num_steps = 1`, as `approx_derivative` calls it) are such that every
evaluation point implied by the chosen scheme — `x0 + h` for the 2-point
(`'1-sided'`) scheme; `x0 + h` and `x0 + 2h` for a one-sided variable and
`x0 - h`, `x0 + h` for a central variable in the 3-point (`'2-sided'`)
scheme — satisfies `lb ≤ x ≤ ub`, for every variable and every combination
of finite and infinite bounds. -/
theorem adjusted_step_never_leaves_bounds (n : ℕ) (x0 h : Fin n → ℚ)
    (lb ub : Fin n → Option ℚ) (hx : ∀ i, inBounds (lb i) (ub i) (x0 i)) :
    (∀ p, adjustSchemeToBounds n x0 h 1 "1-sided" lb ub = Except.ok p →
        ∀ i, inBounds (lb i) (ub i) (x0 i + p.1 i)) ∧
    (∀ p, adjustSchemeToBounds n x0 h 1 "2-sided" lb ub = Except.ok p →
        ∀ i,
          (p.2 i = true →
            inBounds (lb i) (ub i) (x0 i + p.1 i) ∧
            inBounds (lb i) (ub i) (x0 i + 2 * p.1 i)) ∧
          (p.2 i = false →
            inBounds (lb i) (ub i) (x0 i - p.1 i) ∧
            inBounds (lb i) (ub i) (x0 i + p.1 i))) := by
  constructor
  · intro p hp i
    have hp' : Except.ok (ε := String)
        (adjustSchemeToBounds1Sided n x0 h 1 lb ub) = Except.ok p := hp
    injection hp' with hp'
    subst hp'
    unfold adjustSchemeToBounds1Sided
    split_ifs with hall
    · obtain ⟨h1, h2⟩ := hall i
      dsimp only
      rw [h1, h2]
      exact inBounds_none_none _
    · exact adjust1SidedVar_mem _ _ _ _ (hx i)
  · intro p hp i
    have hp' : Except.ok (ε := String)
        (adjustSchemeToBounds2Sided n x0 h 1 lb ub) = Except.ok p := hp
    injection hp' with hp'
    subst hp'
    unfold adjustSchemeToBounds2Sided
    split_ifs with hall
    · obtain ⟨h1, h2⟩ := hall i
      dsimp only
      rw [h1, h2]
      exact ⟨fun hb => (nomatch hb),
             fun _ => ⟨inBounds_none_none _, inBounds_none_none _⟩⟩
    · exact adjust2SidedVar_mem _ _ _ _ (hx i)

/-- Witness for C1 at a concrete bounded input (`n = 1`, `x0 = 0`,
`h = 2`, bounds `[-1, 1]`): the one-sided scheme point stays in bounds. -/
theorem adjusted_step_never_leaves_bounds_witness :
    inBounds (some (-1)) (some 1)
      ((fun _ : Fin 1 => (0 : ℚ)) 0 +
        (adjustSchemeToBounds1Sided 1 (fun _ => (0 : ℚ)) (fun _ => 2) 1
          (fun _ => some (-1)) (fun _ => some 1)).1 0) :=
  (adjusted_step_never_leaves_bounds 1 (fun _ => 0) (fun _ => 2)
      (fun _ => some (-1)) (fun _ => some 1) (by decide)).1 _ rfl 0

lemma adjust1SidedVar_amended (x0 h : ℚ) (s : ℕ) (lb ub : Option ℚ) :
    oneSidedAdjustAmended x0 h s lb ub (adjust1SidedVar x0 h s lb ub) := by
  unfold oneSidedAdjustAmended
  simp only [adjust1SidedVar]
  split_ifs with h1 h2 h3
  · exact Or.inl ⟨h2, h1, rfl⟩
  · exact Or.inr (Or.inr ⟨Bool.not_eq_true _ ▸ h2, h1, rfl⟩)
  · exact Or.inr (Or.inl ⟨h1, Or.inl ⟨h3, rfl⟩⟩)
  · exact Or.inr (Or.inl ⟨h1, Or.inr ⟨lt_of_not_le h3, rfl⟩⟩)

/-- C5 (counterexample). At `x0 = 0`, `h = 1/2`, `num_steps = 1`,
`lb = -1`, `ub = 1` the step neither violates the bounds nor exceeds the
larger distance; the code leaves `h = 1/2` unchanged, while the claim's
"otherwise" branch demands the clamped value `(ub-x0)/num_steps = 1`. -/
theorem one_sided_adjust_claim_counterexample :
    adjust1SidedVar 0 (1/2) 1 (some (-1)) (some 1) = 1/2 ∧
    ¬ oneSidedAdjustClaim 0 (1/2) 1 (some (-1)) (some 1)
        (adjust1SidedVar 0 (1/2) 1 (some (-1)) (some 1)) := by
  have hval : adjust1SidedVar 0 (1/2) 1 (some (-1)) (some 1) = 1/2 := by
    rw [adjust1SidedVar_some_some]
    rw [abs_of_pos (by norm_num : (0:ℚ) < 1/2)]
    norm_num
  refine ⟨hval, ?_⟩
  rw [hval]
  rintro (⟨hv, -, -⟩ | ⟨-, (⟨-, hres⟩ | ⟨hlt, -⟩)⟩)
  · simp only [oneSidedViolated, Bool.or_eq_true, decide_eq_true_eq] at hv
    rcases hv with hv | hv <;> norm_num at hv
  · simp only [upperDist, WithTop.untop'_coe] at hres
    norm_num at hres
  · simp only [upperDist, lowerDist, WithTop.coe_lt_coe] at hlt
    norm_num at hlt

/-- C5 (amended). In the one-sided bound adjustment with at least one
finite bound, for each variable: if the unmodified step would leave the
bound interval and `|h*num_steps|` does not exceed `max(x0-lb, ub-x0)`, the
sign of `h` is flipped; if `|h*num_steps|` exceeds that maximum, `h` is set
to `(ub-x0)/num_steps` when `ub-x0 ≥ x0-lb` and to `-(x0-lb)/num_steps`
otherwise; and a step that stays inside the bounds and fits is left
unchanged. -/
theorem one_sided_adjustment_amended (n : ℕ) (x0 h : Fin n → ℚ) (s : ℕ)
    (lb ub : Fin n → Option ℚ) (hne : ¬ ∀ i, lb i = none ∧ ub i = none) :
    ∀ i, oneSidedAdjustAmended (x0 i) (h i) s (lb i) (ub i)
        ((adjustSchemeToBounds1Sided n x0 h s lb ub).1 i) := by
  intro i
  unfold adjustSchemeToBounds1Sided
  rw [if_neg hne]
  exact adjust1SidedVar_amended _ _ _ _ _

/-- Witness for the amended C5 at a concrete input with finite bounds. -/
theorem one_sided_adjustment_amended_witness :
    oneSidedAdjustAmended 0 (1/2) 1 (some (-1)) (some 1)
      ((adjustSchemeToBounds1Sided 1 (fun _ => (0 : ℚ)) (fun _ => 1/2) 1
        (fun _ => some (-1)) (fun _ => some 1)).1 0) :=
  one_sided_adjustment_amended 1 (fun _ => 0) (fun _ => 1/2) 1
    (fun _ => some (-1)) (fun _ => some 1) (by decide) 0

/-- C7. For every `x0` and method in `{'2-point','3-point'}` with no
relative step supplied, the relative step used is `EPS^(1/2)` for the
2-point method and `EPS^(1/3)` for the 3-point method, `EPS` being the
machine epsilon `2⁻⁵²` of float64, and the absolute step equals
`rel_step * sign(x0) * max(1, |x0|)` where `sign(x0)` is `+1` if `x0 ≥ 0`
and `-1` otherwise. -/
theorem default_absolute_step (x0 : ℝ) :
    computeAbsoluteStep none x0 "2-point" =
      Except.ok (EPS ^ ((1 : ℝ)/2) * (if 0 ≤ x0 then (1 : ℝ) else -1) * max 1 |x0|) ∧
    computeAbsoluteStep none x0 "3-point" =
      Except.ok (EPS ^ ((1 : ℝ)/3) * (if 0 ≤ x0 then (1 : ℝ) else -1) * max 1 |x0|) ∧
    EPS = 2 ^ (-52 : ℤ) := by
  refine ⟨?_, ?_, rfl⟩
  · have h : computeAbsoluteStep none x0 "2-point" =
        Except.ok (EPS ^ ((1 : ℝ)/2) * signX0 x0 * max 1 |x0|) := rfl
    rw [h, Except.ok.injEq]
    unfold signX0
    split_ifs <;> ring
  · have h : computeAbsoluteStep none x0 "3-point" =
        Except.ok (EPS ^ ((1 : ℝ)/3) * signX0 x0 * max 1 |x0|) := rfl
    rw [h, Except.ok.injEq]
    unfold signX0
    split_ifs <;> ring

/-- C2 (counterexample). With `x0 = [2]`, bounds `[0, 1]` and `f0` not
supplied, `approx_derivative` raises the bound-violation error only
**after** evaluating `fun` once at `x0`: the claim that validation errors
always precede any function evaluation fails here. -/
theorem validation_before_evaluation_counterexample :
    approxDerivativeValidate "3-point" [2] (Sum.inl (some 0)) (Sum.inl (some 1))
        false = (.error .boundViolation, 1) ∧ (1 : ℕ) ≠ 0 :=
  ⟨rfl, by decide⟩

/-- C2 (amended). A malformed method or a bounds/point shape mismatch
raises before any `fun` evaluation; when `f0` is supplied no evaluation
happens at all; but a bound-violating `x0` with `f0` not supplied raises
its validation error only after exactly one `fun` evaluation (the
`f0 = fun(x0)` call). -/
theorem validation_order_amended (method : String) (x0 : List ℚ)
    (lbS ubS : Option ℚ ⊕ List (Option ℚ)) (f0Given : Bool) :
    (((approxDerivativeValidate method x0 lbS ubS f0Given).1 = .error .invalidMethod ∨
      (approxDerivativeValidate method x0 lbS ubS f0Given).1 = .error .shapeError) →
        (approxDerivativeValidate method x0 lbS ubS f0Given).2 = 0) ∧
    (f0Given = true → (approxDerivativeValidate method x0 lbS ubS f0Given).2 = 0) ∧
    ((approxDerivativeValidate method x0 lbS ubS f0Given).1 = .error .boundViolation →
      f0Given = false → (approxDerivativeValidate method x0 lbS ubS f0Given).2 = 1) := by
  simp only [approxDerivativeValidate]
  split_ifs with h1 h2 h3 h4 <;> simp_all

/-- Witness for the amended C2: at the counterexample's input the theorem
yields that exactly one evaluation happened before the bound error. -/
theorem validation_order_amended_witness :
    (approxDerivativeValidate "3-point" [2] (Sum.inl (some 0)) (Sum.inl (some 1))
        false).2 = 1 :=
  (validation_order_amended "3-point" [2] (Sum.inl (some 0)) (Sum.inl (some 1))
      false).2.2 rfl rfl

lemma shareRow_symm {m n : ℕ} (pattern : Fin m → Fin n → Bool) (c c' : Fin n) :
    shareRow pattern c c' = shareRow pattern c' c := by
  unfold shareRow
  simp only [decide_eq_decide]
  constructor <;> rintro ⟨r, h1, h2⟩ <;> exact ⟨r, h2, h1⟩

lemma assignedGroup_eq {n : ℕ} (asg : List (Fin n × ℕ)) (c : Fin n) (g : ℕ)
    (hmem : (c, g) ∈ asg) (hnd : (asg.map Prod.fst).Nodup) :
    assignedGroup asg c = g := by
  induction asg with
  | nil => cases hmem
  | cons p tail ih =>
    rw [List.map_cons, List.nodup_cons] at hnd
    rcases List.mem_cons.mp hmem with heq | htail
    · subst heq
      unfold assignedGroup
      simp
    · have hne : p.1 ≠ c := by
        intro hpc
        exact hnd.1 (hpc ▸ List.mem_map_of_mem Prod.fst htail)
      unfold assignedGroup
      rw [List.find?_cons_of_neg _ (by simpa using hne)]
      exact ih htail hnd.2

/-- The inductive heart of the grouping invariant: along the greedy scan,
every assigned group id is below the group count, same-group columns never
share a nonzero row, every id below the count is in use, every scanned
column is assigned, assignments persist, and assigned columns stay
distinct. -/
lemma greedyGroup_spec {m n : ℕ} (pattern : Fin m → Fin n → Bool) :
    ∀ (cols : List (Fin n)) (asg : List (Fin n × ℕ)) (G : ℕ),
      (∀ p, p ∈ asg → p.2 < G) →
      (∀ p, p ∈ asg → ∀ q, q ∈ asg → p.1 ≠ q.1 → p.2 = q.2 →
        shareRow pattern p.1 q.1 = false) →
      (∀ g, g < G → ∃ p, p ∈ asg ∧ p.2 = g) →
      (asg.map Prod.fst).Nodup →
      (∀ c, c ∈ cols → c ∉ asg.map Prod.fst) →
      cols.Nodup →
      (∀ p, p ∈ (greedyGroup pattern cols (asg, G)).1 →
          p.2 < (greedyGroup pattern cols (asg, G)).2) ∧
      (∀ p, p ∈ (greedyGroup pattern cols (asg, G)).1 →
        ∀ q, q ∈ (greedyGroup pattern cols (asg, G)).1 →
          p.1 ≠ q.1 → p.2 = q.2 → shareRow pattern p.1 q.1 = false) ∧
      (∀ g, g < (greedyGroup pattern cols (asg, G)).2 →
          ∃ p, p ∈ (greedyGroup pattern cols (asg, G)).1 ∧ p.2 = g) ∧
      (∀ c, c ∈ cols → ∃ g, (c, g) ∈ (greedyGroup pattern cols (asg, G)).1) ∧
      (∀ p, p ∈ asg → p ∈ (greedyGroup pattern cols (asg, G)).1) ∧
      ((greedyGroup pattern cols (asg, G)).1.map Prod.fst).Nodup := by
  intro cols
  induction cols with
  | nil =>
    intro asg G h1 h2 h3 h4 h5 h6
    exact ⟨h1, h2, h3, fun c hc => absurd hc (List.not_mem_nil c),
           fun p hp => hp, h4⟩
  | cons c rest ih =>
    intro asg G h1 h2 h3 h4 h5 h6
    simp only [greedyGroup]
    set g := ((List.range G).find? (fun g => compatible pattern asg c g)).getD G
      with hg
    have hgle : g ≤ G := by
      rcases hfind : (List.range G).find? (fun g => compatible pattern asg c g)
          with _ | gv
      · rw [hg, hfind]; exact le_refl G
      · rw [hg, hfind]
        exact le_of_lt (List.mem_range.mp (List.mem_of_find?_eq_some hfind))
    -- compatibility of the chosen group with all existing assignments
    have hcompat : ∀ q, q ∈ asg → q.2 = g → shareRow pattern c q.1 = false := by
      intro q hq hqg
      rcases hfind : (List.range G).find? (fun g => compatible pattern asg c g)
          with _ | gv
      · have hgG : g = G := by rw [hg, hfind]; rfl
        exact absurd ((hqg.trans hgG) ▸ h1 q hq) (lt_irrefl G)
      · have hgv : g = gv := by rw [hg, hfind]; rfl
        have hcv : compatible pattern asg c gv = true := List.find?_some hfind
        unfold compatible at hcv
        rw [List.all_eq_true] at hcv
        have h' := hcv q hq
        have hq2 : q.2 = gv := hqg.trans hgv
        simp [hq2] at h'
        exact h'
    have hcnotin : c ∉ asg.map Prod.fst := h5 c (List.mem_cons_self c rest)
    -- preconditions for the tail call
    have p1 : ∀ p, p ∈ (c, g) :: asg → p.2 < max G (g + 1) := by
      intro p hp
      rcases List.mem_cons.mp hp with heq | htail
      · subst heq
        exact lt_of_lt_of_le (Nat.lt_succ_self g) (le_max_right _ _)
      · exact lt_of_lt_of_le (h1 p htail) (le_max_left _ _)
    have p2 : ∀ p, p ∈ (c, g) :: asg → ∀ q, q ∈ (c, g) :: asg →
        p.1 ≠ q.1 → p.2 = q.2 → shareRow pattern p.1 q.1 = false := by
      intro p hp q hq hne heq
      rcases List.mem_cons.mp hp with hpe | hpt <;>
        rcases List.mem_cons.mp hq with hqe | hqt
      · subst hpe; subst hqe; exact absurd rfl hne
      · subst hpe
        exact hcompat q hqt heq.symm
      · subst hqe
        rw [shareRow_symm]
        exact hcompat p hpt heq
      · exact h2 p hpt q hqt hne heq
    have p3 : ∀ g', g' < max G (g + 1) → ∃ p, p ∈ (c, g) :: asg ∧ p.2 = g' := by
      intro g' hg'
      by_cases hlt : g' < G
      · obtain ⟨p, hp, hpg⟩ := h3 g' hlt
        exact ⟨p, List.mem_cons_of_mem _ hp, hpg⟩
      · have hgG : g = G := by
          rcases lt_or_eq_of_le hgle with hlt2 | heq2
          · exfalso
            rw [max_eq_left (Nat.succ_le_of_lt hlt2)] at hg'
            exact hlt hg'
          · exact heq2
        have : g' = g := by
          rw [hgG] at hg' ⊢
          rw [max_eq_right (Nat.le_succ G)] at hg'
          omega
        exact ⟨(c, g), List.mem_cons_self _ _, this.symm⟩
    have p4 : (((c, g) :: asg).map Prod.fst).Nodup := by
      rw [List.map_cons, List.nodup_cons]
      exact ⟨hcnotin, h4⟩
    have p5 : ∀ c', c' ∈ rest → c' ∉ ((c, g) :: asg).map Prod.fst := by
      intro c' hc'
      rw [List.map_cons, List.mem_cons]
      rintro (hce | hct)
      · have hcc : c' = c := hce
        rw [List.nodup_cons] at h6
        exact h6.1 (hcc ▸ hc')
      · exact h5 c' (List.mem_cons_of_mem _ hc') hct
    have p6 : rest.Nodup := (List.nodup_cons.mp h6).2
    obtain ⟨q1, q2, q3, q4, q5, q6⟩ :=
      ih ((c, g) :: asg) (max G (g + 1)) p1 p2 p3 p4 p5 p6
    refine ⟨q1, q2, q3, ?_, ?_, q6⟩
    · intro c' hc'
      rcases List.mem_cons.mp hc' with hce | hct
      · subst hce
        exact ⟨g, q5 _ (List.mem_cons_self _ _)⟩
      · exact q4 c' hct
    · intro p hp
      exact q5 p (List.mem_cons_of_mem _ hp)

/-- C4. For every sparsity pattern and every permutation given as
`order`, the Groups vector of `group_columns` gives every column exactly
one group id in `[0, G)` (`G` the number of groups, all of them in use),
and no two columns with the same group id have a structurally nonzero
entry in a common row; this holds for every permutation, including the
random one used when `order` is omitted. -/
theorem grouping_invariant_all_orders {m n : ℕ} (A : Fin m → Fin n → ℚ)
    (order : Option (Equiv.Perm (Fin n))) (randOrder : Equiv.Perm (Fin n)) :
    (∀ c, groupColumns A order randOrder c < (groupColumnsFull A order randOrder).2) ∧
    (∀ g, g < (groupColumnsFull A order randOrder).2 →
        ∃ c, groupColumns A order randOrder c = g) ∧
    (∀ c c', c ≠ c' →
      groupColumns A order randOrder c = groupColumns A order randOrder c' →
      ∀ r, ¬ (A r c ≠ 0 ∧ A r c' ≠ 0)) := by
  classical
  set ord := order.getD randOrder with hord
  set pattern : Fin m → Fin n → Bool := fun r c => decide (A r c ≠ 0)
    with hpattern
  have hnodup : ((List.finRange n).map ord).Nodup :=
    (List.nodup_finRange n).map ord.injective
  have hmemall : ∀ c : Fin n, c ∈ (List.finRange n).map ord := by
    intro c
    exact List.mem_map.mpr ⟨ord.symm c, List.mem_finRange _, ord.apply_symm_apply c⟩
  obtain ⟨q1, q2, q3, q4, q5, q6⟩ :=
    greedyGroup_spec pattern ((List.finRange n).map ord) [] 0
      (fun p hp => absurd hp (List.not_mem_nil p))
      (fun p hp => absurd hp (List.not_mem_nil p))
      (fun g hg => absurd hg (Nat.not_lt_zero g))
      List.nodup_nil
      (fun c _ => List.not_mem_nil c)
      hnodup
  have hlookup : ∀ c : Fin n,
      (c, groupColumns A order randOrder c) ∈
        (greedyGroup pattern ((List.finRange n).map ord) ([], 0)).1 := by
    intro c
    obtain ⟨g, hgmem⟩ := q4 c (hmemall c)
    have : groupColumns A order randOrder c = g := by
      unfold groupColumns groupColumnsFull
      rw [← hord, ← hpattern]
      exact assignedGroup_eq _ c g hgmem q6
    rw [this]
    exact hgmem
  refine ⟨?_, ?_, ?_⟩
  · intro c
    have := q1 _ (hlookup c)
    unfold groupColumnsFull
    rw [← hord, ← hpattern]
    exact this
  · intro g hg
    have hg' : g < (greedyGroup pattern ((List.finRange n).map ord) ([], 0)).2 := by
      unfold groupColumnsFull at hg
      rw [← hord, ← hpattern] at hg
      exact hg
    obtain ⟨p, hp, hpg⟩ := q3 g hg'
    refine ⟨p.1, ?_⟩
    have : groupColumns A order randOrder p.1 = p.2 := by
      unfold groupColumns groupColumnsFull
      rw [← hord, ← hpattern]
      exact assignedGroup_eq _ p.1 p.2 (by simpa using hp) q6
    rw [this, hpg]
  · intro c c' hne heq r hbad
    have hshare : shareRow pattern c c' = false :=
      q2 _ (hlookup c) _ (hlookup c') hne heq
    unfold shareRow at hshare
    rw [decide_eq_false_iff_not] at hshare
    exact hshare ⟨r, by simp [hpattern, hbad.1], by simp [hpattern, hbad.2]⟩

/-- Witness for C4 on the 2×2 identity pattern with the identity
permutation: the two columns land in one group and indeed share no row. -/
theorem grouping_invariant_all_orders_witness :
    ¬ ((fun r c : Fin 2 => if (r : ℕ) = (c : ℕ) then (1 : ℚ) else 0) 0 0 ≠ 0 ∧
       (fun r c : Fin 2 => if (r : ℕ) = (c : ℕ) then (1 : ℚ) else 0) 0 1 ≠ 0) :=
  (grouping_invariant_all_orders
      (fun r c : Fin 2 => if (r : ℕ) = (c : ℕ) then (1 : ℚ) else 0)
      none (Equiv.refl (Fin 2))).2.2 0 1 (by decide) (by decide) 0

/-- C9. `group_columns` is deterministic once an explicit order is
supplied: the drawn random permutation (modelled as the `randOrder`
argument) does not influence the result. -/
theorem group_columns_deterministic_with_order {m n : ℕ}
    (A : Fin m → Fin n → ℚ) (ord : Equiv.Perm (Fin n))
    (rand1 rand2 : Equiv.Perm (Fin n)) :
    groupColumnsFull A (some ord) rand1 = groupColumnsFull A (some ord) rand2 :=
  rfl

lemma foldl_sparseGroupStep_entry {m n : ℕ} (f : (Fin n → ℚ) → Fin m → ℚ)
    (x0 : Fin n → ℚ) (f0 : Fin m → ℚ) (h : Fin n → ℚ)
    (useOneSided : Fin n → Bool) (structMat : Fin m → Fin n → ℚ)
    (groups : Fin n → ℕ) (method : FDMethod) :
    ∀ (K : ℕ) (J : Fin m → Fin n → ℚ) (r : Fin m) (c : Fin n),
      ((List.range K).foldl
          (sparseGroupStep f x0 f0 h useOneSided structMat groups method) J) r c =
        if groups c < K ∧ structMat r c ≠ 0 then
          sparseGroupValue f x0 f0 h useOneSided structMat groups method
            (groups c) r c
        else J r c := by
  intro K
  induction K with
  | zero =>
    intro J r c
    rw [List.range_zero, List.foldl_nil, if_neg]
    rintro ⟨hk, -⟩
    exact Nat.not_lt_zero _ hk
  | succ K ih =>
    intro J r c
    rw [List.range_succ, List.foldl_append, List.foldl_cons, List.foldl_nil]
    show (if groups c = K ∧ structMat r c ≠ 0 then _ else _) = _
    by_cases h1 : groups c = K ∧ structMat r c ≠ 0
    · rw [if_pos h1, if_pos ⟨h1.1 ▸ Nat.lt_succ_self K, h1.2⟩, h1.1]
    · rw [if_neg h1, ih J r c]
      apply if_congr _ rfl rfl
      constructor
      · rintro ⟨hk, hs⟩
        exact ⟨Nat.lt_succ_of_lt hk, hs⟩
      · rintro ⟨hk, hs⟩
        refine ⟨?_, hs⟩
        rcases Nat.lt_succ_iff_lt_or_eq.mp hk with hlt | heq
        · exact hlt
        · exact absurd ⟨heq, hs⟩ h1

lemma groups_lt_nGroups {n : ℕ} (groups : Fin n → ℕ) (c : Fin n) :
    groups c < nGroups groups :=
  Nat.lt_succ_of_le (Finset.le_sup (Finset.mem_univ c))

/-- The entry of the sparse Jacobian: the divided difference of the
column's group at structurally nonzero positions, `0` elsewhere. -/
lemma sparseDifference_entry {m n : ℕ} (f : (Fin n → ℚ) → Fin m → ℚ)
    (x0 : Fin n → ℚ) (f0 : Fin m → ℚ) (h : Fin n → ℚ)
    (useOneSided : Fin n → Bool) (structMat : Fin m → Fin n → ℚ)
    (groups : Fin n → ℕ) (method : FDMethod) (r : Fin m) (c : Fin n) :
    sparseDifference f x0 f0 h useOneSided structMat groups method r c =
      if structMat r c ≠ 0 then
        sparseGroupValue f x0 f0 h useOneSided structMat groups method
          (groups c) r c
      else 0 := by
  unfold sparseDifference
  rw [foldl_sparseGroupStep_entry]
  by_cases hs : structMat r c ≠ 0
  · rw [if_pos ⟨groups_lt_nGroups groups c, hs⟩, if_pos hs]
  · rw [if_neg (fun hc => hs hc.2), if_neg hs]

/-- Entries outside the sparsity structure are never written: the sparse
Jacobian is 0 there. -/
lemma sparseDifference_support {m n : ℕ} (f : (Fin n → ℚ) → Fin m → ℚ)
    (x0 : Fin n → ℚ) (f0 : Fin m → ℚ) (h : Fin n → ℚ)
    (useOneSided : Fin n → Bool) (structMat : Fin m → Fin n → ℚ)
    (groups : Fin n → ℕ) (method : FDMethod) (r : Fin m) (c : Fin n)
    (hz : structMat r c = 0) :
    sparseDifference f x0 f0 h useOneSided structMat groups method r c = 0 := by
  rw [sparseDifference_entry, if_neg (fun hc => hc hz)]

/-- On a fully dense pattern with each column its own group, the divided
difference computed by a singleton group coincides with the dense
differencer's entry. -/
lemma sparseGroupValue_singleton {m n : ℕ} (f : (Fin n → ℚ) → Fin m → ℚ)
    (x0 : Fin n → ℚ) (f0 : Fin m → ℚ) (h : Fin n → ℚ)
    (useOneSided : Fin n → Bool) (structMat : Fin m → Fin n → ℚ)
    (groups : Fin n → ℕ) (method : FDMethod) (r : Fin m) (c : Fin n)
    (hgroups : ∀ j : Fin n, groups j = (j : ℕ)) (hs : structMat r c ≠ 0) :
    sparseGroupValue f x0 f0 h useOneSided structMat groups method
      (groups c) r c = denseDifference f x0 f0 h useOneSided method r c := by
  have he : ∀ j : Fin n, (groups j = groups c) ↔ j = c := by
    intro j
    rw [hgroups, hgroups]
    exact ⟨fun hh => Fin.ext hh, fun hh => by rw [hh]⟩
  cases method with
  | twoPoint =>
    unfold sparseGroupValue denseDifference
    dsimp only
    simp only [decide_eq_true_eq, he]
    have hx : (fun j => x0 j + h j * (if j = c then (1 : ℚ) else 0)) =
        (fun j => if j = c then x0 j + h j else x0 j) := by
      funext j
      by_cases hj : j = c
      · rw [if_pos hj, if_pos hj, mul_one]
      · rw [if_neg hj, if_neg hj, mul_zero, add_zero]
    rw [hx]
    simp
  | threePoint =>
    unfold sparseGroupValue denseDifference
    dsimp only
    simp only [Bool.and_eq_true, Bool.not_eq_true', decide_eq_true_eq, he]
    by_cases hos : useOneSided c = true
    · have hx1 : (fun j => if useOneSided j = true ∧ j = c then
            x0 j + h j * (if j = c then (1 : ℚ) else 0)
          else if useOneSided j = false ∧ j = c then
            x0 j - h j * (if j = c then (1 : ℚ) else 0)
          else x0 j) = (fun j => if j = c then x0 j + h j else x0 j) := by
        funext j
        by_cases hj : j = c
        · subst hj; simp [hos]
        · simp [hj]
      have hx2 : (fun j => if useOneSided j = true ∧ j = c then
            x0 j + 2 * (h j * (if j = c then (1 : ℚ) else 0))
          else if useOneSided j = false ∧ j = c then
            x0 j + h j * (if j = c then (1 : ℚ) else 0)
          else x0 j) = (fun j => if j = c then x0 j + 2 * h j else x0 j) := by
        funext j
        by_cases hj : j = c
        · subst hj; simp [hos]
        · simp [hj]
      rw [hx1, hx2]
      simp [hos, hs]
    · rw [Bool.not_eq_true] at hos
      have hx1 : (fun j => if useOneSided j = true ∧ j = c then
            x0 j + h j * (if j = c then (1 : ℚ) else 0)
          else if useOneSided j = false ∧ j = c then
            x0 j - h j * (if j = c then (1 : ℚ) else 0)
          else x0 j) = (fun j => if j = c then x0 j - h j else x0 j) := by
        funext j
        by_cases hj : j = c
        · subst hj; simp [hos]
        · simp [hj]
      have hx2 : (fun j => if useOneSided j = true ∧ j = c then
            x0 j + 2 * (h j * (if j = c then (1 : ℚ) else 0))
          else if useOneSided j = false ∧ j = c then
            x0 j + h j * (if j = c then (1 : ℚ) else 0)
          else x0 j) = (fun j => if j = c then x0 j + h j else x0 j) := by
        funext j
        by_cases hj : j = c
        · subst hj; simp [hos]
        · simp [hj]
      rw [hx1, hx2]
      simp [hos, hs]

/-- C8. For every function, point, method and step vector, when the
sparsity structure is fully dense (every entry nonzero) and each column is
its own group, the Jacobian assembled by the sparse differencer equals the
dense differencer's Jacobian entrywise, exactly, in the exact-arithmetic
embedding. -/
theorem sparse_equals_dense_on_dense_pattern {m n : ℕ}
    (f : (Fin n → ℚ) → Fin m → ℚ) (x0 : Fin n → ℚ) (f0 : Fin m → ℚ)
    (h : Fin n → ℚ) (useOneSided : Fin n → Bool) (method : FDMethod)
    (structMat : Fin m → Fin n → ℚ) (groups : Fin n → ℕ)
    (hdense : ∀ r c, structMat r c ≠ 0)
    (hgroups : ∀ c : Fin n, groups c = (c : ℕ)) :
    sparseDifference f x0 f0 h useOneSided structMat groups method =
      denseDifference f x0 f0 h useOneSided method := by
  funext r c
  rw [sparseDifference_entry, if_pos (hdense r c),
    sparseGroupValue_singleton f x0 f0 h useOneSided structMat groups method
      r c hgroups (hdense r c)]

/-- The per-entry error metric of `check_derivative` is nonnegative. -/
lemma metric_nonneg (a e : ℚ) : 0 ≤ |a - e| / max 1 |e| :=
  div_nonneg (abs_nonneg _) (le_trans zero_le_one (le_max_left _ _))

/-- A maximum of the error metric over a set that contains every position
with nonzero difference bounds the metric everywhere and is attained on
the set. -/
lemma sup'_metric_spec {m n : ℕ} (Jtest Jdiff : Fin m → Fin n → ℚ)
    (s : Finset (Fin m × Fin n)) (hne : s.Nonempty)
    (hcover : ∀ r c, Jtest r c - Jdiff r c ≠ 0 → (r, c) ∈ s) :
    (∀ r c, |Jtest r c - Jdiff r c| / max 1 |Jdiff r c| ≤
        s.sup' hne (fun p => |Jtest p.1 p.2 - Jdiff p.1 p.2| /
          max 1 |Jdiff p.1 p.2|)) ∧
    (∃ r c, (r, c) ∈ s ∧
        s.sup' hne (fun p => |Jtest p.1 p.2 - Jdiff p.1 p.2| /
          max 1 |Jdiff p.1 p.2|) =
        |Jtest r c - Jdiff r c| / max 1 |Jdiff r c|) := by
  constructor
  · intro r c
    by_cases hd : Jtest r c - Jdiff r c ≠ 0
    · exact Finset.le_sup'
        (fun p : Fin m × Fin n =>
          |Jtest p.1 p.2 - Jdiff p.1 p.2| / max 1 |Jdiff p.1 p.2|)
        (hcover r c hd)
    · push_neg at hd
      rw [hd, abs_zero, zero_div]
      obtain ⟨p, hp⟩ := hne
      exact le_trans (metric_nonneg (Jtest p.1 p.2) (Jdiff p.1 p.2))
        (Finset.le_sup'
          (fun p : Fin m × Fin n =>
            |Jtest p.1 p.2 - Jdiff p.1 p.2| / max 1 |Jdiff p.1 p.2|)
          hp)
  · obtain ⟨p, hp, hsup⟩ := Finset.exists_mem_eq_sup' hne
      (fun p => |Jtest p.1 p.2 - Jdiff p.1 p.2| / max 1 |Jdiff p.1 p.2|)
    exact ⟨p.1, p.2, hp, hsup⟩

/-- Extraction of the dense comparison path: a successful
`check_derivative` without sparse differencing returns the maximum of the
error metric over all entries. -/
lemma checkDerivative_dense_ok {m n : ℕ} (f : (Fin n → ℚ) → Fin m → ℚ)
    (Jtest : Fin m → Fin n → ℚ) (jacSparse : Bool)
    (sparsity : Option ((Fin m → Fin n → ℚ) × (Fin n → ℕ)))
    (x0 : Fin n → ℚ) (lb ub : Fin n → Option ℚ) (relStep : ℚ)
    (randOrder : Equiv.Perm (Fin n)) (v : ℚ) (Jdiff : Fin m → Fin n → ℚ)
    (hdiff : approxDerivative f x0 .threePoint relStep none lb ub none =
      .ok Jdiff)
    (hok : checkDerivative f Jtest jacSparse false sparsity x0 lb ub relStep
      randOrder = .ok v) :
    ∃ hne : (Finset.univ : Finset (Fin m × Fin n)).Nonempty,
      v = Finset.univ.sup' hne (fun p : Fin m × Fin n =>
        |Jtest p.1 p.2 - Jdiff p.1 p.2| / max 1 |Jdiff p.1 p.2|) := by
  unfold checkDerivative at hok
  rw [Bool.and_false, if_neg (by exact fun hc => nomatch hc)] at hok
  rw [hdiff] at hok
  dsimp only at hok
  split at hok
  · rename_i hne
    injection hok with hok
    exact ⟨hne, hok.symm⟩
  · exact absurd hok (by simp)

/-- Extraction of the sparse comparison path with supplied sparsity: a
successful `check_derivative` returns the maximum of the error metric over
the positions with nonzero stored difference. -/
lemma checkDerivative_sparse_ok {m n : ℕ} (f : (Fin n → ℚ) → Fin m → ℚ)
    (Jtest : Fin m → Fin n → ℚ)
    (sparsity : Option ((Fin m → Fin n → ℚ) × (Fin n → ℕ)))
    (x0 : Fin n → ℚ) (lb ub : Fin n → Option ℚ) (relStep : ℚ)
    (randOrder : Equiv.Perm (Fin n)) (v : ℚ) (Jdiff : Fin m → Fin n → ℚ)
    (hdiff : approxDerivative f x0 .threePoint relStep none lb ub
      (some (match sparsity with
             | none => (Jtest, groupColumns Jtest none randOrder)
             | some s => s)) = .ok Jdiff)
    (hok : checkDerivative f Jtest true true sparsity x0 lb ub relStep
      randOrder = .ok v) :
    ∃ hne : (Finset.univ.filter fun p : Fin m × Fin n =>
        Jtest p.1 p.2 - Jdiff p.1 p.2 ≠ 0).Nonempty,
      v = (Finset.univ.filter fun p : Fin m × Fin n =>
          Jtest p.1 p.2 - Jdiff p.1 p.2 ≠ 0).sup' hne
        (fun p => |Jtest p.1 p.2 - Jdiff p.1 p.2| / max 1 |Jdiff p.1 p.2|) := by
  unfold checkDerivative at hok
  rw [Bool.and_self, if_pos rfl] at hok
  dsimp only at hok
  rw [hdiff] at hok
  dsimp only at hok
  split at hok
  · rename_i hne
    injection hok with hok
    exact ⟨hne, hok.symm⟩
  · exact absurd hok (by simp)

/-- Extraction of a successful sparse `approx_derivative`: the returned
Jacobian is the sparse differencer's output for the adjusted '2-sided'
scheme with the supplied structure and groups. -/
lemma approxDerivative_ok_sparse {m n : ℕ} (f : (Fin n → ℚ) → Fin m → ℚ)
    (x0 : Fin n → ℚ) (relStep : ℚ) (lb ub : Fin n → Option ℚ)
    (sp : (Fin m → Fin n → ℚ) × (Fin n → ℕ)) (Jdiff : Fin m → Fin n → ℚ)
    (hdiff : approxDerivative f x0 .threePoint relStep none lb ub (some sp) =
      .ok Jdiff) :
    Jdiff = sparseDifference f x0 (f x0)
      (adjustSchemeToBounds2Sided n x0
        (fun i => computeAbsoluteStepQ relStep (x0 i)) 1 lb ub).1
      (adjustSchemeToBounds2Sided n x0
        (fun i => computeAbsoluteStepQ relStep (x0 i)) 1 lb ub).2
      sp.1 sp.2 .threePoint := by
  unfold approxDerivative at hdiff
  split_ifs at hdiff
  dsimp only at hdiff
  injection hdiff with hdiff
  exact hdiff.symm

/-- Witness for C8 at a concrete fully dense 1×1 instance. -/
theorem sparse_equals_dense_on_dense_pattern_witness :
    sparseDifference (fun (v : Fin 1 → ℚ) (_ : Fin 1) => v 0) (fun _ => 1) (fun _ => 1)
        (fun _ => 1/2) (fun _ => false) (fun _ _ => 1) (fun c => (c : ℕ))
        FDMethod.threePoint =
      denseDifference (fun (v : Fin 1 → ℚ) (_ : Fin 1) => v 0) (fun _ => 1) (fun _ => 1)
        (fun _ => 1/2) (fun _ => false) FDMethod.threePoint :=
  sparse_equals_dense_on_dense_pattern _ _ _ _ _ _ _ _
    (fun _ _ => one_ne_zero) (fun _ => rfl)

/-- C6. `check_derivative` returns the maximum over all compared
entries of `|analytic − estimate| / max(1, |estimate|)` — the relative
error `|analytic − estimate| / |estimate|` when `|estimate| > 1` and the
absolute error otherwise — in both the dense and the sparse comparison
paths: in either path the returned value bounds that metric at every
entry and is attained at one. -/
theorem check_derivative_max_error_metric {m n : ℕ}
    (f : (Fin n → ℚ) → Fin m → ℚ) (Jtest : Fin m → Fin n → ℚ)
    (jacSparse : Bool)
    (sparsity : Option ((Fin m → Fin n → ℚ) × (Fin n → ℕ)))
    (x0 : Fin n → ℚ) (lb ub : Fin n → Option ℚ) (relStep : ℚ)
    (randOrder : Equiv.Perm (Fin n)) :
    (∀ a e : ℚ, |a - e| / max 1 |e| =
      if 1 < |e| then |a - e| / |e| else |a - e|) ∧
    (∀ (v : ℚ) (Jdiff : Fin m → Fin n → ℚ),
      approxDerivative f x0 .threePoint relStep none lb ub none = .ok Jdiff →
      checkDerivative f Jtest jacSparse false sparsity x0 lb ub relStep
        randOrder = .ok v →
        (∀ r c, |Jtest r c - Jdiff r c| / max 1 |Jdiff r c| ≤ v) ∧
        (∃ r c, v = |Jtest r c - Jdiff r c| / max 1 |Jdiff r c|)) ∧
    (∀ (v : ℚ) (Jdiff : Fin m → Fin n → ℚ)
        (sp : (Fin m → Fin n → ℚ) × (Fin n → ℕ)),
      approxDerivative f x0 .threePoint relStep none lb ub (some sp) =
        .ok Jdiff →
      checkDerivative f Jtest true true (some sp) x0 lb ub relStep
        randOrder = .ok v →
        (∀ r c, |Jtest r c - Jdiff r c| / max 1 |Jdiff r c| ≤ v) ∧
        (∃ r c, v = |Jtest r c - Jdiff r c| / max 1 |Jdiff r c|)) := by
  refine ⟨?_, ?_, ?_⟩
  · intro a e
    by_cases h1 : 1 < |e|
    · rw [if_pos h1, max_eq_right (le_of_lt h1)]
    · rw [if_neg h1, max_eq_left (not_lt.mp h1), div_one]
  · intro v Jdiff hdiff hok
    obtain ⟨hne, hv⟩ := checkDerivative_dense_ok f Jtest jacSparse sparsity
      x0 lb ub relStep randOrder v Jdiff hdiff hok
    subst hv
    obtain ⟨hle, r, c, -, hat⟩ := sup'_metric_spec Jtest Jdiff Finset.univ hne
      (fun r c _ => Finset.mem_univ _)
    exact ⟨hle, r, c, hat⟩
  · intro v Jdiff sp hdiff hok
    obtain ⟨hne, hv⟩ := checkDerivative_sparse_ok f Jtest (some sp)
      x0 lb ub relStep randOrder v Jdiff hdiff hok
    subst hv
    obtain ⟨hle, r, c, -, hat⟩ := sup'_metric_spec Jtest Jdiff _ hne
      (fun r c hd => Finset.mem_filter.mpr ⟨Finset.mem_univ _, hd⟩)
    exact ⟨hle, r, c, hat⟩

/-- C3. In `check_derivative` with a sparse analytic Jacobian and
sparse differencing requested (the sparsity pattern derived from the
analytic result), the elementwise error is computed exactly at the
structurally nonzero positions of the analytic Jacobian: outside them the
stored difference is identically zero (such positions never contribute),
the returned maximum bounds the error at every structurally nonzero
position, and it is attained at one of them. -/
theorem check_derivative_sparse_structural_positions {m n : ℕ}
    (f : (Fin n → ℚ) → Fin m → ℚ) (Jtest : Fin m → Fin n → ℚ)
    (x0 : Fin n → ℚ) (lb ub : Fin n → Option ℚ) (relStep : ℚ)
    (randOrder : Equiv.Perm (Fin n)) (v : ℚ) (Jdiff : Fin m → Fin n → ℚ)
    (hdiff : approxDerivative f x0 .threePoint relStep none lb ub
      (some (Jtest, groupColumns Jtest none randOrder)) = .ok Jdiff)
    (hok : checkDerivative f Jtest true true none x0 lb ub relStep
      randOrder = .ok v) :
    (∀ r c, Jtest r c = 0 → Jtest r c - Jdiff r c = 0) ∧
    (∀ r c, Jtest r c ≠ 0 →
      |Jtest r c - Jdiff r c| / max 1 |Jdiff r c| ≤ v) ∧
    (∃ r c, Jtest r c ≠ 0 ∧
      v = |Jtest r c - Jdiff r c| / max 1 |Jdiff r c|) := by
  have hsupp : ∀ r c, Jtest r c = 0 → Jdiff r c = 0 := by
    intro r c hz
    have hJ := approxDerivative_ok_sparse f x0 relStep lb ub _ Jdiff hdiff
    rw [hJ]
    exact sparseDifference_support _ _ _ _ _ _ _ _ r c hz
  have hzero : ∀ r c, Jtest r c = 0 → Jtest r c - Jdiff r c = 0 := by
    intro r c hz
    rw [hz, hsupp r c hz, sub_zero]
  obtain ⟨hne, hv⟩ := checkDerivative_sparse_ok f Jtest none x0 lb ub relStep
    randOrder v Jdiff hdiff hok
  subst hv
  obtain ⟨hle, r, c, hmem, hat⟩ := sup'_metric_spec Jtest Jdiff _ hne
    (fun r c hd => Finset.mem_filter.mpr ⟨Finset.mem_univ _, hd⟩)
  refine ⟨hzero, fun r c _ => hle r c, r, c, ?_, hat⟩
  have hd := (Finset.mem_filter.mp hmem).2
  intro hz
  exact hd (hzero r c hz)

/-! Concrete 1×1 evaluations of the pipeline, used below. -/

lemma adjust2Sided_unbounded {n : ℕ} (x0 h : Fin n → ℚ) (s : ℕ) :
    adjustSchemeToBounds2Sided n x0 h s (fun _ => none) (fun _ => none) =
      (fun i => |h i|, fun _ => false) := by
  unfold adjustSchemeToBounds2Sided
  rw [if_pos (fun i => ⟨rfl, rfl⟩)]

lemma concrete_groups (a : ℚ) :
    groupColumns (fun _ _ : Fin 1 => a) none (Equiv.refl (Fin 1)) =
      fun _ => 0 := by
  funext c
  have hc : c = 0 := Fin.fin_one_eq_zero c
  subst hc
  unfold groupColumns groupColumnsFull
  dsimp only
  have h1 : (List.finRange 1).map (⇑(Equiv.refl (Fin 1))) = [0] := by decide
  rw [Option.getD_none, h1]
  simp only [greedyGroup, List.range_zero, List.find?_nil, Option.getD_none]
  unfold assignedGroup
  simp [List.find?]

lemma concrete_absstep : computeAbsoluteStepQ 1 0 = 1 := by
  unfold computeAbsoluteStepQ
  rw [if_pos (le_refl (0 : ℚ))]
  norm_num

lemma concrete_sparse_approx (a : ℚ) (ha : a ≠ 0) :
    approxDerivative (fun x (_ : Fin 1) => x 0) (fun _ => 0) .threePoint 1 none
      (fun _ => none) (fun _ => none)
      (some ((fun _ _ : Fin 1 => a),
             groupColumns (fun _ _ : Fin 1 => a) none (Equiv.refl (Fin 1)))) =
    Except.ok (fun _ _ => 1) := by
  unfold approxDerivative
  rw [if_neg (by simp [inBounds])]
  dsimp only
  refine congrArg Except.ok ?_
  funext r c
  have hr : r = 0 := Fin.fin_one_eq_zero r
  have hc : c = 0 := Fin.fin_one_eq_zero c
  subst hr
  subst hc
  rw [concrete_groups, adjust2Sided_unbounded]
  rw [sparseDifference_entry]
  rw [if_pos ha]
  unfold sparseGroupValue
  dsimp only
  norm_num [concrete_absstep, ha]

lemma concrete_check_sparse :
    checkDerivative (fun x (_ : Fin 1) => x 0) (fun _ _ => (3 : ℚ)) true true
      none (fun _ => 0) (fun _ => none) (fun _ => none) 1
      (Equiv.refl (Fin 1)) = .ok 2 := by
  unfold checkDerivative
  rw [Bool.and_self, if_pos rfl]
  dsimp only
  rw [concrete_sparse_approx 3 (by norm_num)]
  dsimp only
  have hfil : (Finset.univ.filter fun p : Fin 1 × Fin 1 =>
      (fun _ _ : Fin 1 => (3 : ℚ)) p.1 p.2 -
        (fun _ _ : Fin 1 => (1 : ℚ)) p.1 p.2 ≠ 0) = Finset.univ := by
    apply Finset.filter_true_of_mem
    intro p _
    norm_num
  simp only [hfil]
  rw [dif_pos Finset.univ_nonempty]
  refine congrArg Except.ok ?_
  rw [Finset.sup'_const]
  norm_num

/-- C10. There is an input — a sparse analytic Jacobian whose stored
values agree exactly with the finite-difference estimate at every compared
position, so that `J_to_test - J_diff` has no stored nonzero entry — on
which `check_derivative` with sparse differencing fails (the `np.max` of
an empty reduction) instead of returning an accuracy of 0: here
`f(x) = x`, `x0 = 0`, analytic Jacobian `[[1]]`, exactly matched by the
central difference. -/
theorem check_derivative_empty_difference_fails :
    checkDerivative (fun x (_ : Fin 1) => x 0) (fun _ _ => (1 : ℚ)) true true
      none (fun _ => 0) (fun _ => none) (fun _ => none) 1
      (Equiv.refl (Fin 1)) = .error .emptyMax := by
  unfold checkDerivative
  rw [Bool.and_self, if_pos rfl]
  dsimp only
  rw [concrete_sparse_approx 1 one_ne_zero]
  dsimp only
  have hfil : (Finset.univ.filter fun p : Fin 1 × Fin 1 =>
      (fun _ _ : Fin 1 => (1 : ℚ)) p.1 p.2 -
        (fun _ _ : Fin 1 => (1 : ℚ)) p.1 p.2 ≠ 0) = ∅ := by
    refine Finset.filter_eq_empty_iff.mpr ?_
    intro p _
    norm_num
  simp only [hfil]
  rw [dif_neg Finset.not_nonempty_empty]

/-- Witness for C3 at `f(x) = x`, `x0 = 0`, analytic Jacobian `[[3]]`
(deliberately wrong), estimate `[[1]]`, accuracy `2`. -/
theorem check_derivative_sparse_structural_positions_witness :
    (∀ r c : Fin 1, (fun _ _ : Fin 1 => (3 : ℚ)) r c = 0 →
      (fun _ _ : Fin 1 => (3 : ℚ)) r c - (fun _ _ : Fin 1 => (1 : ℚ)) r c = 0) ∧
    (∀ r c : Fin 1, (fun _ _ : Fin 1 => (3 : ℚ)) r c ≠ 0 →
      |(fun _ _ : Fin 1 => (3 : ℚ)) r c - (fun _ _ : Fin 1 => (1 : ℚ)) r c| /
        max 1 |(fun _ _ : Fin 1 => (1 : ℚ)) r c| ≤ 2) ∧
    (∃ r c : Fin 1, (fun _ _ : Fin 1 => (3 : ℚ)) r c ≠ 0 ∧
      (2 : ℚ) = |(fun _ _ : Fin 1 => (3 : ℚ)) r c -
        (fun _ _ : Fin 1 => (1 : ℚ)) r c| /
        max 1 |(fun _ _ : Fin 1 => (1 : ℚ)) r c|) :=
  check_derivative_sparse_structural_positions (fun x (_ : Fin 1) => x 0)
    (fun _ _ => 3) (fun _ => 0) (fun _ => none) (fun _ => none) 1
    (Equiv.refl (Fin 1)) 2 (fun _ _ => 1)
    (concrete_sparse_approx 3 (by norm_num)) concrete_check_sparse

/-- Witness for C6 (sparse path) at the same concrete instance. -/
theorem check_derivative_max_error_metric_witness :
    (∀ r c : Fin 1,
      |(fun _ _ : Fin 1 => (3 : ℚ)) r c - (fun _ _ : Fin 1 => (1 : ℚ)) r c| /
        max 1 |(fun _ _ : Fin 1 => (1 : ℚ)) r c| ≤ 2) ∧
    (∃ r c : Fin 1, (2 : ℚ) =
      |(fun _ _ : Fin 1 => (3 : ℚ)) r c - (fun _ _ : Fin 1 => (1 : ℚ)) r c| /
        max 1 |(fun _ _ : Fin 1 => (1 : ℚ)) r c|) :=
  (check_derivative_max_error_metric (fun x (_ : Fin 1) => x 0)
      (fun _ _ => 3) true none (fun _ => 0) (fun _ => none) (fun _ => none) 1
      (Equiv.refl (Fin 1))).2.2 2 (fun _ _ => 1)
    ((fun _ _ : Fin 1 => (3 : ℚ)),
      groupColumns (fun _ _ : Fin 1 => (3 : ℚ)) none (Equiv.refl (Fin 1)))
    (concrete_sparse_approx 3 (by norm_num)) concrete_check_sparse

lemma concrete_sparse_approx2 :
    approxDerivative (fun x (_ : Fin 2) => x 0) (fun _ => 0) .threePoint 1 none
      (fun _ => none) (fun _ => none)
      (some ((fun (_ : Fin 2) (_ : Fin 1) => (1 : ℚ)), (fun _ => 0))) =
    Except.ok (fun _ _ => 1) := by
  unfold approxDerivative
  rw [if_neg (by simp [inBounds])]
  dsimp only
  refine congrArg Except.ok ?_
  funext r c
  have hc : c = 0 := Fin.fin_one_eq_zero c
  subst hc
  rw [adjust2Sided_unbounded]
  rw [sparseDifference_entry]
  rw [if_pos one_ne_zero]
  unfold sparseGroupValue
  dsimp only
  norm_num [concrete_absstep]

lemma concrete_check_supplied :
    checkDerivative (fun x (_ : Fin 2) => x 0)
      (fun r (_ : Fin 1) => if r = (0 : Fin 2) then (1 : ℚ) else 0) true true
      (some ((fun (_ : Fin 2) (_ : Fin 1) => (1 : ℚ)), (fun _ => 0)))
      (fun _ => 0) (fun _ => none) (fun _ => none) 1
      (Equiv.refl (Fin 1)) = .ok 1 := by
  unfold checkDerivative
  rw [Bool.and_self, if_pos rfl]
  dsimp only
  rw [concrete_sparse_approx2]
  dsimp only
  have hfil : (Finset.univ.filter fun p : Fin 2 × Fin 1 =>
      (fun r (_ : Fin 1) => if r = (0 : Fin 2) then (1 : ℚ) else 0) p.1 p.2 -
        (fun _ _ : Fin 1 => (1 : ℚ)) p.1 p.2 ≠ 0) = {((1 : Fin 2), (0 : Fin 1))} := by
    ext p
    rcases p with ⟨r, c⟩
    have hc : c = 0 := Fin.fin_one_eq_zero c
    subst hc
    fin_cases r
    · simp
      decide
    · simp
  simp only [hfil]
  rw [dif_pos (Finset.singleton_nonempty _)]
  refine congrArg Except.ok ?_
  rw [Finset.sup'_singleton]
  norm_num

/-- C3 (counterexample). With a user-supplied sparsity structure wider
than the analytic support — analytic Jacobian `[[1],[0]]`, supplied
structure `[[1],[1]]`, `f(x) = [x, x]`, `x0 = 0` — the estimate is
`[[1],[1]]`, the error at the only structurally nonzero analytic position
`(0,0)` is `0`, yet `check_derivative` returns `1`: the maximum is
determined by position `(1,0)`, which lies outside the structurally
nonzero positions of the analytic result, contradicting the claim. -/
theorem check_derivative_sparse_outside_support_counterexample :
    approxDerivative (fun x (_ : Fin 2) => x 0) (fun _ => 0) .threePoint 1 none
      (fun _ => none) (fun _ => none)
      (some ((fun (_ : Fin 2) (_ : Fin 1) => (1 : ℚ)), (fun _ => 0))) =
      Except.ok (fun _ _ => 1) ∧
    checkDerivative (fun x (_ : Fin 2) => x 0)
      (fun r (_ : Fin 1) => if r = (0 : Fin 2) then (1 : ℚ) else 0) true true
      (some ((fun (_ : Fin 2) (_ : Fin 1) => (1 : ℚ)), (fun _ => 0)))
      (fun _ => 0) (fun _ => none) (fun _ => none) 1
      (Equiv.refl (Fin 1)) = .ok 1 ∧
    (fun r (_ : Fin 1) => if r = (0 : Fin 2) then (1 : ℚ) else 0)
      (0 : Fin 2) (0 : Fin 1) ≠ 0 ∧
    (fun r (_ : Fin 1) => if r = (0 : Fin 2) then (1 : ℚ) else 0)
      (1 : Fin 2) (0 : Fin 1) = 0 ∧
    |(fun r (_ : Fin 1) => if r = (0 : Fin 2) then (1 : ℚ) else 0)
        (0 : Fin 2) (0 : Fin 1) - (1 : ℚ)| / max 1 |(1 : ℚ)| = 0 ∧
    (1 : ℚ) ≠ 0 := by
  refine ⟨concrete_sparse_approx2, concrete_check_supplied, ?_, ?_, ?_, ?_⟩
  · norm_num
  · norm_num
  · norm_num
  · norm_num

end NumDiff

